/-
Verification of the oh-my-pi tool surface against its specification.

The development shallowly embeds:
  * the file-edit orchestrator from
    `src/packages/coding-agent/src/core/tools/edit.ts` (`createEditTool.execute`),
  * the custom-API registry from `src/packages/ai/src/api-registry.ts`,
  * the snowflake identifier generator from `src/packages/utils/src/snowflake.ts`.

Document content is embedded as `List Char` (one element per UTF-16 code unit
of the JavaScript string; the inputs in this development stay within the BMP,
where the two notions agree).  Fallible operations return an explicit result
type instead of throwing.  The helper module `edit-diff.ts` (document
normalizer and match engine) is not part of the sources; those definitions
are modelled from the specification and marked as such.
-/
import Mathlib

namespace OhMyPi

/-- Greedy left-to-right scan for the number of non-overlapping exact
occurrences of the fragment `p` in `s`, fuelled so that the recursion is
structural (the callers pass `s.length` as fuel, which always suffices
because every step consumes at least one character).  For the empty
fragment the greedy enumeration of the specification does not terminate,
so the count of the empty fragment is defined to be `0`. -/
def countOccFuel (p : List Char) : Nat → List Char → Nat
  | 0, _ => 0
  | _ + 1, [] => 0
  | fuel + 1, c :: t =>
    if p ≠ [] ∧ p.isPrefixOf (c :: t) then 1 + countOccFuel p fuel (t.drop (p.length - 1))
    else countOccFuel p fuel t

/-- Number of non-overlapping exact occurrences of `p` in `s`. -/
def countOcc (p s : List Char) : Nat := countOccFuel p s.length s

/-- Start index of the leftmost exact occurrence of `p` in `s`
(meaningful only when an occurrence exists). -/
def firstOccIdx (p : List Char) : List Char → Nat
  | [] => 0
  | c :: t => if p.isPrefixOf (c :: t) then 0 else 1 + firstOccIdx p t

/-- Fuelled worker for JavaScript `String.prototype.split` with a non-empty
separator: non-overlapping leftmost matches cut the string into chunks. -/
def splitFuel (p : List Char) : Nat → List Char → List (List Char)
  | 0, s => [s]
  | _ + 1, [] => [[]]
  | fuel + 1, c :: t =>
    if p.isPrefixOf (c :: t) then
      [] :: splitFuel p fuel (t.drop (p.length - 1))
    else
      match splitFuel p fuel t with
      | [] => [[c]]
      | h :: r => (c :: h) :: r

/-- JavaScript `content.split(sep)`: with the empty separator the string is
cut between every pair of adjacent characters (`"".split("")` is `[]`),
otherwise chunks between non-overlapping leftmost occurrences. -/
def jsSplit (p s : List Char) : List (List Char) :=
  if p = [] then s.map (fun c => [c]) else splitFuel p s.length s

/-- JavaScript `Array.prototype.join`: concatenation with `sep` between
consecutive elements, the empty array joining to the empty string. -/
def jsJoin (sep : List Char) : List (List Char) → List Char
  | [] => []
  | [x] => x
  | x :: y :: r => x ++ sep ++ jsJoin sep (y :: r)

/-- Fuelled worker for the specification-level replace-all: every
non-overlapping leftmost occurrence of `p` is rewritten to `repl`. -/
def replaceAllFuel (p repl : List Char) : Nat → List Char → List Char
  | 0, s => s
  | _ + 1, [] => []
  | fuel + 1, c :: t =>
    if p ≠ [] ∧ p.isPrefixOf (c :: t) then repl ++ replaceAllFuel p repl fuel (t.drop (p.length - 1))
    else c :: replaceAllFuel p repl fuel t

/-- Specification-level exact replace-all, following the words of the spec
(&#167;4.3): every one of the non-overlapping exact occurrences of `p` is
replaced by `repl`.  Used to compare with the `split`/`join` pipeline of
the source. -/
def replaceAllSpec (p repl s : List Char) : List Char := replaceAllFuel p repl s.length s

/-- `content.substring(0, idx) + repl + content.substring(idx + len)`:
the splice that `createEditTool.execute` performs at a match. -/
def splice (s : List Char) (idx len : Nat) (repl : List Char) : List Char :=
  s.take idx ++ repl ++ s.drop (idx + len)

/-! ### Document normalizer

`stripBom`, `detectLineEnding`, `normalizeToLF` and `restoreLineEndings`
live in `edit-diff.ts`, which is not among the sources; they are modelled
from the specification (&#167;4.1). -/

/-- The byte-order marker in string space: the single code unit U+FEFF. -/
def bomChar : Char := Char.ofNat 0xFEFF

/-- Modelled from the spec: `stripBom` of the missing `edit-diff.ts` —
recognize the byte-order marker at the start of the content, remove it and
keep it to re-prepend verbatim on output. -/
def stripBom (s : List Char) : List Char × List Char :=
  match s with
  | [] => ([], [])
  | c :: t => if c = bomChar then ([c], t) else ([], c :: t)

/-- Number of CRLF pairs in the content (leftmost, non-overlapping). -/
def countCRLF : List Char → Nat
  | [] => 0
  | [_] => 0
  | a :: b :: t =>
    if a = '\r' ∧ b = '\n' then 1 + countCRLF t else countCRLF (b :: t)

/-- Number of lone LF characters (line feeds not preceded by a carriage
return) in the content. -/
def countLoneLF : List Char → Nat
  | [] => 0
  | [c] => if c = '\n' then 1 else 0
  | a :: b :: t =>
    if a = '\r' ∧ b = '\n' then countLoneLF t
    else (if a = '\n' then 1 else 0) + countLoneLF (b :: t)

/-- A line-terminator convention. -/
inductive LineKind where
  | lf
  | crlf
deriving DecidableEq

/-- The detected line-ending classification of a document: uniform LF,
uniform CRLF, or mixed with a recorded dominant convention. -/
inductive LineEnding where
  | lf
  | crlf
  | mixed (dominant : LineKind)
deriving DecidableEq

/-- Whether the classification is the mixed one. -/
def LineEnding.isMixed : LineEnding → Bool
  | .mixed _ => true
  | _ => false

/-- Modelled from the spec: `detectLineEnding` of the missing
`edit-diff.ts` — classify the content as CRLF, LF-only, or mixed; when
mixed, record the majority convention as the one to restore. -/
def detectLineEnding (s : List Char) : LineEnding :=
  let cr := countCRLF s
  let lo := countLoneLF s
  if cr = 0 then .lf
  else if lo = 0 then .crlf
  else .mixed (if lo < cr then .crlf else .lf)

/-- Modelled from the spec: `normalizeToLF` of the missing `edit-diff.ts`
— convert every CRLF terminator to a single LF for matching purposes. -/
def normalizeToLF : List Char → List Char
  | [] => []
  | [c] => [c]
  | a :: b :: t =>
    if a = '\r' ∧ b = '\n' then '\n' :: normalizeToLF t
    else a :: normalizeToLF (b :: t)

/-- Expand every LF of canonical content back to CRLF. -/
def restoreCRLF : List Char → List Char
  | [] => []
  | a :: t => if a = '\n' then '\r' :: '\n' :: restoreCRLF t else a :: restoreCRLF t

/-- Modelled from the spec: `restoreLineEndings` of the missing
`edit-diff.ts` — re-expand canonical content to the recorded convention
(the majority convention for a mixed document). -/
def restoreLineEndings (s : List Char) (e : LineEnding) : List Char :=
  match e with
  | .lf => s
  | .crlf => restoreCRLF s
  | .mixed .lf => s
  | .mixed .crlf => restoreCRLF s

/-- The round trip of the normalizer on raw content with no edit applied:
strip the marker, detect the convention, canonicalize, then re-prepend the
marker and re-expand. -/
def roundTrip (raw : List Char) : List Char :=
  (stripBom raw).1 ++ restoreLineEndings (normalizeToLF ((stripBom raw).2)) (detectLineEnding ((stripBom raw).2))

/-! ### Match engine

`findEditMatch` lives in the missing `edit-diff.ts`; it is modelled from
the specification (&#167;4.2).  The approximate scan's similarity metric is
under-determined by the spec, so it is abstracted as a parameter `fz`
producing the scored candidate list; every theorem about the orchestrator
holds for an arbitrary such scanner. -/

/-- A located candidate span: start offset, the literal matched substring,
and a confidence score in the rationals. -/
structure MatchCandidate where
  startIndex : Nat
  actualText : List Char
  confidence : ℚ
deriving DecidableEq

/-- The outcome of the match engine: the chosen match (named `match` in
the source, a Lean keyword), the count of exact duplicate occurrences, the
best-scoring candidate for diagnostics, and the bounded candidate list. -/
structure MatchOutcome where
  chosen : Option MatchCandidate
  occurrences : Nat
  closest : Option MatchCandidate
  fuzzyMatches : List MatchCandidate
deriving DecidableEq

/-- Best-scoring candidate, earlier candidates winning ties (the spec
breaks ties by leftmost start offset and the scan emits candidates left to
right). -/
def pickBest : List MatchCandidate → Option MatchCandidate :=
  List.foldl
    (fun acc c =>
      match acc with
      | none => some c
      | some b => if b.confidence < c.confidence then some c else some b)
    none

/-- Modelled from the spec: `findEditMatch` of the missing `edit-diff.ts`
(&#167;4.2).  Exact scan first: a unique exact occurrence is the match with
confidence 1; several exact occurrences yield no chosen match but the
occurrence count; zero occurrences fall through to the approximate scan
(when allowed), whose scored candidates come from the abstract scanner
`fz`, the best being chosen only at or above the threshold. -/
def findEditMatch (fz : List Char → List Char → List MatchCandidate)
    (allowFuzzy : Bool) (th : ℚ) (content pattern : List Char) : MatchOutcome :=
  let n := countOcc pattern content
  if n = 1 then
    { chosen := some { startIndex := firstOccIdx pattern content, actualText := pattern, confidence := 1 }
      occurrences := 1
      closest := none
      fuzzyMatches := [] }
  else if 1 < n then
    { chosen := none, occurrences := n, closest := none, fuzzyMatches := [] }
  else if allowFuzzy then
    let cands := fz content pattern
    let best := pickBest cands
    { chosen :=
        match best with
        | some b => if th ≤ b.confidence then some b else none
        | none => none
      occurrences := 0
      closest := best
      fuzzyMatches := cands }
  else
    { chosen := none, occurrences := 0, closest := none, fuzzyMatches := [] }

/-! ### Errors and results of the edit orchestrator -/

/-- The failure modes that `createEditTool.execute` raises before reaching
the writethrough collaborator. -/
inductive EditError where
  | unsupportedFormat (path : List Char)
  | notFound (path : List Char)
  | ambiguousMatch (path : List Char) (occurrences : Nat)
  | noMatch (path : List Char) (oldText : List Char) (closest : Option MatchCandidate)
      (allowFuzzy : Bool) (threshold : ℚ) (fuzzyMatches : List MatchCandidate)
  | noEffectiveChange (path : List Char)
deriving DecidableEq

/-- Whether an error is the no-match failure mode. -/
def EditError.isNoMatch : EditError → Bool
  | .noMatch _ _ _ _ _ _ => true
  | _ => false

/-- The user-facing message of each error, following the literal templates
of `edit.ts`. -/
def EditError.message : EditError → String
  | .unsupportedFormat _ =>
    "Cannot edit Jupyter notebooks with the Edit tool. Use the NotebookEdit tool instead."
  | .notFound p => "File not found: " ++ String.mk p
  | .ambiguousMatch p n =>
    "Found " ++ toString n ++ " occurrences of the text in " ++ String.mk p ++
      ". The text must be unique. Please provide more context to make it unique, or use all: true to replace all."
  | .noMatch p _ _ _ _ _ => "Failed to find a match in " ++ String.mk p
  | .noEffectiveChange p =>
    "No changes made to " ++ String.mk p ++
      ". The replacement produced identical content. This might indicate an issue with special characters or the text not existing as expected."

/-- Result of the replacement phase: a raised error, or the mutated
normalized content together with the replacement count. -/
inductive CoreResult where
  | fail (e : EditError)
  | done (content : List Char) (count : Nat)
deriving DecidableEq

/-- Single-replacement mode of `createEditTool.execute` (lines 122-149):
ambiguity check on the exact occurrence count, then the unique (exact or
qualifying approximate) match is spliced. -/
def singleReplace (fz : List Char → List Char → List MatchCandidate)
    (allowFuzzy : Bool) (th : ℚ) (path content old new : List Char) : CoreResult :=
  let o := findEditMatch fz allowFuzzy th content old
  if 1 < o.occurrences then
    .fail (.ambiguousMatch path o.occurrences)
  else
    match o.chosen with
    | none => .fail (.noMatch path old o.closest allowFuzzy th o.fuzzyMatches)
    | some m => .done (splice content m.startIndex m.actualText.length new) 1

/-- The composite match selection of the all-mode loop (lines 98-102):
the engine's chosen match, or else the closest candidate when fuzzy
matching is allowed and the candidate passes the threshold. -/
def loopSelect (fz : List Char → List Char → List MatchCandidate)
    (allowFuzzy : Bool) (th : ℚ) (old cur : List Char) : Option MatchCandidate :=
  let o := findEditMatch fz allowFuzzy th cur old
  match o.chosen with
  | some m => some m
  | none =>
    if allowFuzzy then
      match o.closest with
      | some c => if th ≤ c.confidence then some c else none
      | none => none
    else none

/-- The error raised when the all-mode loop gives up with zero
replacements (lines 105-111), carrying the near-miss diagnostics of the
match outcome on the current content. -/
def loopNoMatch (fz : List Char → List Char → List MatchCandidate)
    (allowFuzzy : Bool) (th : ℚ) (path old cur : List Char) : EditError :=
  let o := findEditMatch fz allowFuzzy th cur old
  .noMatch path old o.closest allowFuzzy th o.fuzzyMatches

/-- The iterative approximate replacement loop of all mode (lines 91-120).
The source is `while (true)` with no iteration cap; the embedding makes the
iteration count explicit as fuel and returns `none` when the fuel is
exhausted, i.e. when the source loop would still be running. -/
def fuzzyLoop (fz : List Char → List Char → List MatchCandidate)
    (allowFuzzy : Bool) (th : ℚ) (path old new : List Char) :
    Nat → List Char → Nat → Option CoreResult
  | 0, _, _ => none
  | fuel + 1, cur, count =>
    match loopSelect fz allowFuzzy th old cur with
    | none =>
      if count = 0 then some (.fail (loopNoMatch fz allowFuzzy th path old cur))
      else some (.done cur count)
    | some m =>
      fuzzyLoop fz allowFuzzy th path old new fuel
        (splice cur m.startIndex m.actualText.length new) (count + 1)

/-- The replacement phase of `createEditTool.execute` (lines 80-149):
all mode first attempts an exact global replace-all via `split`/`join`
(lines 84-88) and otherwise runs the iterative approximate loop; single
mode delegates to `singleReplace`. -/
def replacePhase (fz : List Char → List Char → List MatchCandidate)
    (allowFuzzy : Bool) (th : ℚ) (path : List Char) (fuel : Nat)
    (content old new : List Char) (all : Bool) : Option CoreResult :=
  if all then
    let exactCount := (jsSplit old content).length - 1
    if 0 < exactCount then
      some (.done (jsJoin new (jsSplit old content)) exactCount)
    else
      fuzzyLoop fz allowFuzzy th path old new fuel content 0
  else
    some (singleReplace fz allowFuzzy th path content old new)

/-- The replacement phase followed by the no-effective-change verification
of `createEditTool.execute` (lines 151-156): a result equal to the
normalized input is a user-visible error, not a silent success. -/
def editCore (fz : List Char → List Char → List MatchCandidate)
    (allowFuzzy : Bool) (th : ℚ) (path : List Char) (fuel : Nat)
    (content old new : List Char) (all : Bool) : Option CoreResult :=
  match replacePhase fz allowFuzzy th path fuel content old new all with
  | none => none
  | some (.fail e) => some (.fail e)
  | some (.done c cnt) =>
    if content = c then some (.fail (.noEffectiveChange path))
    else some (.done c cnt)

/-- The payload assembled on success: the final bytes handed to the
writethrough collaborator, the replacement count, and the two normalized
contents that feed the diff generator (line 161). -/
structure EditSuccess where
  finalContent : List Char
  count : Nat
  preNormalized : List Char
  postNormalized : List Char
deriving DecidableEq

/-- Outcome of a whole edit invocation. -/
inductive ExecResult where
  | fail (e : EditError)
  | done (s : EditSuccess)
deriving DecidableEq

/-- Whole-invocation model of `createEditTool.execute` (lines 50-188):
the notebook-format rejection, the existence check against the abstract
filesystem `fs` (after resolving the path with the abstract `resolve` of
`path-utils`), BOM stripping, line-ending normalization of the content and
of both text arguments, the replacement phase with its verification, and
the restoration of marker and convention around the mutated content.
`none` means the source would not terminate (the all-mode loop never
exits). -/
def executeEdit (fz : List Char → List Char → List MatchCandidate)
    (allowFuzzy : Bool) (th : ℚ) (resolve : List Char → List Char)
    (fs : List Char → Option (List Char)) (fuel : Nat)
    (path oldText newText : List Char) (all : Bool) : Option ExecResult :=
  if List.isSuffixOf (String.toList ".ipynb") path then
    some (.fail (.unsupportedFormat path))
  else
    match fs (resolve path) with
    | none => some (.fail (.notFound path))
    | some raw =>
      let bom := (stripBom raw).1
      let text := (stripBom raw).2
      let originalEnding := detectLineEnding text
      let content := normalizeToLF text
      let old := normalizeToLF oldText
      let new := normalizeToLF newText
      match editCore fz allowFuzzy th path fuel content old new all with
      | none => none
      | some (.fail e) => some (.fail e)
      | some (.done c cnt) =>
        some (.done
          { finalContent := bom ++ restoreLineEndings c originalEnding
            count := cnt
            preNormalized := content
            postNormalized := c })

/-- The filesystem after an edit invocation: the writethrough collaborator
(line 159) persists the final bytes at the resolved path, and it is only
reached on the success path — every raised error aborts beforehand. -/
def executeEditFS (fz : List Char → List Char → List MatchCandidate)
    (allowFuzzy : Bool) (th : ℚ) (resolve : List Char → List Char)
    (fs : List Char → Option (List Char)) (fuel : Nat)
    (path oldText newText : List Char) (all : Bool) : List Char → Option (List Char) :=
  match executeEdit fz allowFuzzy th resolve fs fuel path oldText newText all with
  | some (.done s) => fun q => if q = resolve path then some s.finalContent else fs q
  | _ => fs

/-- An approximate scanner exhibiting the degenerate behaviour named by the
spec (&#167;4.8 termination guard): it scores the whole current content as a
perfect whitespace-insensitive match of the fragment, as the spec's metric
does when content and fragment differ only in whitespace runs. -/
def fzRematch : List Char → List Char → List MatchCandidate :=
  fun content _ => [{ startIndex := 0, actualText := content, confidence := 1 }]

/-! ### Custom-API registry (`src/packages/ai/src/api-registry.ts`)

The registry is a keyed map from API identifier to a registered entry; the
streaming function type is abstracted as a type parameter `α`.  The map is
embedded extensionally as a function from keys to optional entries, which
captures exactly the `get`/`set`/`delete` behaviour the registry uses. -/

/-- A registry entry: the streaming function and the optional identifier
of the source (extension) that registered it. -/
structure RegisteredCustomApi (α : Type) where
  streamSimple : α
  sourceId : Option String

/-- The registry state. -/
def Registry (α : Type) := String → Option (RegisteredCustomApi α)

/-- `registerCustomApi`: `customApiRegistry.set(api, { streamSimple, sourceId })`. -/
def registerCustomApi {α : Type} (r : Registry α) (api : String) (f : α)
    (sourceId : Option String) : Registry α :=
  fun k => if k = api then some { streamSimple := f, sourceId := sourceId } else r k

/-- `getCustomApi`: `customApiRegistry.get(api)?.streamSimple`. -/
def getCustomApi {α : Type} (r : Registry α) (api : String) : Option α :=
  (r api).map (fun e => e.streamSimple)

/-- `unregisterCustomApis`: delete every entry whose recorded `sourceId`
strictly equals the given source (an entry with an absent `sourceId` never
compares equal to a string). -/
def unregisterCustomApis {α : Type} (r : Registry α) (sourceId : String) : Registry α :=
  fun k =>
    match r k with
    | none => none
    | some e => if e.sourceId = some sourceId then none else some e

/-! ### Snowflake identifiers (`src/packages/utils/src/snowflake.ts`)

Timestamps and epochs are JavaScript BigInt values, embedded as `Int`.
The generator combines a 22-bit sequence with the shifted offset from the
epoch; for the in-range timestamps of the claims every BigInt operand is
non-negative, so the bitwise operations are embedded on `Nat` (via
`Int.toNat`), where they agree with BigInt semantics. -/

/-- The lowercase hexadecimal digit for a value below 16. -/
def hexDigit (d : Nat) : Char :=
  if d < 10 then Char.ofNat (48 + d) else Char.ofNat (87 + d)

/-- `value.toString(16).padStart(16, "0")` for a width-`w` field: the
big-endian lowercase hexadecimal digits of `n`, zero-padded to exactly `w`
characters.  Agrees with the JavaScript expression whenever `n < 16 ^ w`,
which holds at every use below. -/
def toHexFixed : Nat → Nat → List Char
  | 0, _ => []
  | w + 1, n => hexDigit (n / 16 ^ w) :: toHexFixed w (n % 16 ^ w)

/-- Numeric value of a list of hexadecimal digits (most significant
first). -/
def hexDigitVal (c : Char) : Nat :=
  if c ≤ '9' then c.toNat - 48 else c.toNat - 87

/-- Numeric value encoded by a big-endian hex string. -/
def hexVal : List Char → Nat
  | [] => 0
  | c :: t => hexDigitVal c * 16 ^ t.length + hexVal t

/-- Lexicographic (code-unit) comparison of strings, as JavaScript
compares them with `<=`. -/
def lexLe : List Char → List Char → Bool
  | [], _ => true
  | _ :: _, [] => false
  | a :: as, b :: bs =>
    if a < b then true
    else if a = b then lexLe as bs
    else false

/-- `Snowflake.PATTERN` (`/^[0-9a-f]{16}$/`): exactly sixteen lowercase
hexadecimal characters.  `Snowflake.valid` tests this pattern. -/
def snowValid (s : List Char) : Bool :=
  s.length == 16 &&
    s.all (fun c => (('0' ≤ c && c ≤ '9') || ('a' ≤ c && c ≤ 'f')))

/-- `Snowflake.Source`: the configured epoch and the private 22-bit
sequence state. -/
structure SnowSource where
  epoch : Int
  seq : Nat

/-- `Source.next(timestamp)`: advance the masked sequence and combine it
with the shifted timestamp offset, returning the updated source and the
16-character hex identifier. -/
def SnowSource.next (src : SnowSource) (t : Int) : SnowSource × List Char :=
  let seq := (src.seq + 1) &&& 0x3fffff
  let value : Nat := seq ||| ((t - src.epoch).toNat <<< 22)
  ({ epoch := src.epoch, seq := seq }, toHexFixed 16 value)

/-- `Snowflake.lowerbound` for a millisecond timestamp. -/
def snowLowerbound (t : Int) (src : SnowSource) : List Char :=
  toHexFixed 16 (0x000000 ||| ((t - src.epoch).toNat <<< 22))

/-- `Snowflake.upperbound` for a millisecond timestamp. -/
def snowUpperbound (t : Int) (src : SnowSource) : List Char :=
  toHexFixed 16 (0x3fffff ||| ((t - src.epoch).toNat <<< 22))

/-! ## Lemmas about exact occurrence counting and splitting -/

/-- The empty fragment has no non-overlapping exact occurrences. -/
theorem countOccFuel_nil : ∀ (fuel : Nat) (s : List Char), countOccFuel [] fuel s = 0 := by
  intro fuel
  induction fuel with
  | zero => intro s; simp [countOccFuel]
  | succ n ih =>
    intro s
    cases s with
    | nil => simp [countOccFuel]
    | cons c t => simp [countOccFuel, ih]

/-- The empty fragment has no occurrences. -/
theorem countOcc_nil (s : List Char) : countOcc [] s = 0 :=
  countOccFuel_nil _ _

/-- A fragment with an occurrence is non-empty. -/
theorem countOcc_pos_ne {p s : List Char} (h : 0 < countOcc p s) : p ≠ [] := by
  intro he
  rw [he, countOcc_nil] at h
  omega

/-- Splitting never returns the empty list of chunks. -/
theorem splitFuel_ne_nil (p : List Char) :
    ∀ (fuel : Nat) (s : List Char), splitFuel p fuel s ≠ [] := by
  intro fuel
  induction fuel with
  | zero => intro s; simp [splitFuel]
  | succ n ih =>
    intro s
    cases s with
    | nil => simp [splitFuel]
    | cons c t =>
      by_cases hp : p.isPrefixOf (c :: t) = true
      · simp [splitFuel, hp]
      · simp only [splitFuel, hp]
        cases hsp : splitFuel p n t with
        | nil => simp [hsp]
        | cons h r => simp [hsp]

/-- The number of chunks produced by splitting on a non-empty fragment is
one more than the number of non-overlapping exact occurrences. -/
theorem length_splitFuel {p : List Char} (hp : p ≠ []) :
    ∀ (fuel : Nat) (s : List Char),
      (splitFuel p fuel s).length = countOccFuel p fuel s + 1 := by
  intro fuel
  induction fuel with
  | zero => intro s; simp [splitFuel, countOccFuel]
  | succ n ih =>
    intro s
    cases s with
    | nil => simp [splitFuel, countOccFuel]
    | cons c t =>
      by_cases hpre : p.isPrefixOf (c :: t) = true
      · simp [splitFuel, countOccFuel, hp, hpre, ih]
        omega
      · simp only [splitFuel, countOccFuel, hpre]
        have hne := splitFuel_ne_nil p n t
        have hlen := ih t
        cases hsp : splitFuel p n t with
        | nil => exact absurd hsp hne
        | cons h r =>
          rw [hsp] at hlen
          simp at hlen
          simp [hp, hlen]

/-- Joining the chunks of a split on a non-empty fragment with the
replacement text is the specification-level replace-all. -/
theorem join_splitFuel {p : List Char} (hp : p ≠ []) (repl : List Char) :
    ∀ (fuel : Nat) (s : List Char),
      jsJoin repl (splitFuel p fuel s) = replaceAllFuel p repl fuel s := by
  intro fuel
  induction fuel with
  | zero => intro s; simp [splitFuel, jsJoin, replaceAllFuel]
  | succ n ih =>
    intro s
    cases s with
    | nil => simp [splitFuel, jsJoin, replaceAllFuel]
    | cons c t =>
      by_cases hpre : p.isPrefixOf (c :: t) = true
      · simp only [splitFuel, replaceAllFuel, hpre, if_true, hp, ne_eq,
          not_false_iff, true_and]
        have hd := ih (t.drop (p.length - 1))
        have hne := splitFuel_ne_nil p n (t.drop (p.length - 1))
        cases hsp : splitFuel p n (t.drop (p.length - 1)) with
        | nil => exact absurd hsp hne
        | cons a r =>
          rw [hsp] at hd
          simp [jsJoin, ← hd]
      · simp only [splitFuel, replaceAllFuel, hpre]
        have hd := ih t
        have hne := splitFuel_ne_nil p n t
        cases hsp : splitFuel p n t with
        | nil => exact absurd hsp hne
        | cons h r =>
          rw [hsp] at hd
          have hcons : jsJoin repl ((c :: h) :: r) = c :: jsJoin repl (h :: r) := by
            cases r with
            | nil => simp [jsJoin]
            | cons y r2 => simp [jsJoin]
          simp [hcons, hd, hp]

/-- `content.split(old).length - 1` computes the exact occurrence count
for a non-empty search text. -/
theorem exactCount_eq {p : List Char} (hp : p ≠ []) (s : List Char) :
    (jsSplit p s).length - 1 = countOcc p s := by
  simp [jsSplit, hp, length_splitFuel hp, countOcc]

/-- `content.split(old).join(new)` replaces every non-overlapping exact
occurrence for a non-empty search text. -/
theorem join_jsSplit {p : List Char} (hp : p ≠ []) (repl s : List Char) :
    jsJoin repl (jsSplit p s) = replaceAllSpec p repl s := by
  simp [jsSplit, hp, replaceAllSpec, join_splitFuel hp]

/-! ## Lemmas about the all-mode iterative loop -/

/-- If the loop selection yields no match, the engine chose no match. -/
theorem loopSelect_none_chosen {fz : List Char → List Char → List MatchCandidate}
    {af : Bool} {th : ℚ} {old cur : List Char}
    (h : loopSelect fz af th old cur = none) :
    (findEditMatch fz af th cur old).chosen = none := by
  cases hc : (findEditMatch fz af th cur old).chosen with
  | none => rfl
  | some m =>
    simp only [loopSelect, hc] at h
    exact h

/-- The loop can fail only in its very first iteration, with zero
replacements performed and the no-match error computed on the (therefore
unmodified) current content. -/
theorem fuzzyLoop_fail {fz : List Char → List Char → List MatchCandidate}
    {af : Bool} {th : ℚ} {path old new : List Char} :
    ∀ (fuel : Nat) (cur : List Char) (cnt : Nat) (e : EditError),
      fuzzyLoop fz af th path old new fuel cur cnt = some (.fail e) →
      cnt = 0 ∧ loopSelect fz af th old cur = none ∧ e = loopNoMatch fz af th path old cur := by
  intro fuel
  induction fuel with
  | zero => intro cur cnt e h; simp [fuzzyLoop] at h
  | succ n ih =>
    intro cur cnt e h
    simp only [fuzzyLoop] at h
    cases hsel : loopSelect fz af th old cur with
    | none =>
      rw [hsel] at h
      by_cases hc : cnt = 0
      · simp [hc] at h
        exact ⟨hc, rfl, h.symm⟩
      · simp [hc] at h
    | some m =>
      rw [hsel] at h
      have := (ih _ _ _ h).1
      omega

/-- A completed loop stops at content on which the selection finds no
further match, and the count never decreases. -/
theorem fuzzyLoop_done {fz : List Char → List Char → List MatchCandidate}
    {af : Bool} {th : ℚ} {path old new : List Char} :
    ∀ (fuel : Nat) (cur : List Char) (cnt : Nat) (c : List Char) (k : Nat),
      fuzzyLoop fz af th path old new fuel cur cnt = some (.done c k) →
      loopSelect fz af th old c = none ∧ cnt ≤ k := by
  intro fuel
  induction fuel with
  | zero => intro cur cnt c k h; simp [fuzzyLoop] at h
  | succ n ih =>
    intro cur cnt c k h
    simp only [fuzzyLoop] at h
    cases hsel : loopSelect fz af th old cur with
    | none =>
      rw [hsel] at h
      by_cases hc : cnt = 0
      · simp [hc] at h
      · simp [hc] at h
        obtain ⟨rfl, rfl⟩ := h
        exact ⟨hsel, Nat.le_refl _⟩
    | some m =>
      rw [hsel] at h
      have := ih _ _ _ _ h
      exact ⟨this.1, by omega⟩

/-- A loop started on `content` with count zero and completing
successfully performed at least one replacement and returned content
different from the input: the selection is a pure function of the current
content, so an unchanged output would contradict both the first iteration
matching and the last one not. -/
theorem fuzzyLoop_top_done {fz : List Char → List Char → List MatchCandidate}
    {af : Bool} {th : ℚ} {path old new : List Char}
    {fuel : Nat} {content c : List Char} {k : Nat}
    (h : fuzzyLoop fz af th path old new fuel content 0 = some (.done c k)) :
    1 ≤ k ∧ c ≠ content := by
  cases fuel with
  | zero => simp [fuzzyLoop] at h
  | succ n =>
    simp only [fuzzyLoop] at h
    cases hsel : loopSelect fz af th old content with
    | none => rw [hsel] at h; simp at h
    | some m =>
      rw [hsel] at h
      have hd := fuzzyLoop_done _ _ _ _ _ h
      refine ⟨hd.2, ?_⟩
      intro he
      rw [he] at hd
      rw [hd.1] at hsel
      exact Option.noConfusion hsel

/-! ## Lemmas about the document normalizer -/

/-- A document without CRLF pairs is already canonical. -/
theorem normalizeToLF_id :
    ∀ (n : Nat) (s : List Char), s.length ≤ n → countCRLF s = 0 → normalizeToLF s = s := by
  intro n
  induction n with
  | zero =>
    intro s hl _
    cases s with
    | nil => rfl
    | cons c t => simp at hl
  | succ m ih =>
    intro s hl hc
    cases s with
    | nil => rfl
    | cons a t =>
      cases t with
      | nil => rfl
      | cons b t2 =>
        by_cases hab : a = '\r' ∧ b = '\n'
        · simp [countCRLF, hab] at hc
        · simp only [normalizeToLF, hab, if_false]
          simp only [countCRLF, hab, if_false] at hc
          have : (b :: t2).length ≤ m := by simp at hl ⊢; omega
          rw [ih (b :: t2) this hc]

/-- Restoring CRLF after canonicalization reproduces a document whose
line feeds all belong to CRLF pairs. -/
theorem restoreCRLF_normalizeToLF :
    ∀ (n : Nat) (s : List Char), s.length ≤ n → countLoneLF s = 0 →
      restoreCRLF (normalizeToLF s) = s := by
  intro n
  induction n with
  | zero =>
    intro s hl _
    cases s with
    | nil => rfl
    | cons c t => simp at hl
  | succ m ih =>
    intro s hl hc
    cases s with
    | nil => rfl
    | cons a t =>
      cases t with
      | nil =>
        have ha : ¬(a = '\n') := by
          intro he
          simp [countLoneLF, he] at hc
        simp [normalizeToLF, restoreCRLF, ha]
      | cons b t2 =>
        by_cases hab : a = '\r' ∧ b = '\n'
        · simp only [normalizeToLF, hab, if_true]
          simp only [countLoneLF, hab, if_true] at hc
          have hlen : t2.length ≤ m := by simp at hl; omega
          simp [restoreCRLF, ih t2 hlen hc, hab.1, hab.2]
        · simp only [normalizeToLF, hab, if_false]
          simp only [countLoneLF, hab, if_false] at hc
          have ha : ¬(a = '\n') := by
            intro he
            simp [he] at hc
          have hc2 : countLoneLF (b :: t2) = 0 := by
            rcases Nat.add_eq_zero.mp hc with ⟨_, h2⟩
            exact h2
          have hlen : (b :: t2).length ≤ m := by simp at hl ⊢; omega
          simp [restoreCRLF, ha, ih (b :: t2) hlen hc2]

/-- Raw content is the marker part followed by the remainder. -/
theorem stripBom_append (raw : List Char) :
    (stripBom raw).1 ++ (stripBom raw).2 = raw := by
  cases raw with
  | nil => rfl
  | cons c t =>
    by_cases hb : c = bomChar
    · simp [stripBom, hb]
    · simp [stripBom, hb]

/-! ## Lemmas about the match engine and the orchestrator -/

/-- The occurrence count reported by the match engine is the exact
occurrence count of the fragment. -/
theorem findEditMatch_occurrences (fz : List Char → List Char → List MatchCandidate)
    (af : Bool) (th : ℚ) (content old : List Char) :
    (findEditMatch fz af th content old).occurrences = countOcc old content := by
  unfold findEditMatch
  by_cases h1 : countOcc old content = 1
  · simp [h1]
  · by_cases h2 : 1 < countOcc old content
    · simp [h1, h2]
    · by_cases h3 : af = true
      · simp [h1, h2, h3]; omega
      · simp [h1, h2, h3]; omega

/-- A fragment with no exact occurrence of which the loop selection finds
nothing makes single mode fail with the loop's no-match error. -/
theorem singleReplace_noMatch {fz : List Char → List Char → List MatchCandidate}
    {af : Bool} {th : ℚ} {path content old : List Char} (new : List Char)
    (hocc : countOcc old content = 0)
    (hsel : loopSelect fz af th old content = none) :
    singleReplace fz af th path content old new = .fail (loopNoMatch fz af th path old content) := by
  have hch := loopSelect_none_chosen hsel
  simp only [singleReplace, loopNoMatch]
  rw [findEditMatch_occurrences, hocc]
  simp [hch]

/-- `content.split(old).length - 1 = 0` forces the exact occurrence count
to be zero. -/
theorem exactCount_zero_countOcc {old content : List Char}
    (h : (jsSplit old content).length - 1 = 0) : countOcc old content = 0 := by
  by_cases hp : old = []
  · rw [hp]; exact countOcc_nil content
  · rw [← exactCount_eq hp]; exact h

/-- Single mode runs the single-replacement logic. -/
theorem replacePhase_single (fz : List Char → List Char → List MatchCandidate)
    (af : Bool) (th : ℚ) (path : List Char) (fuel : Nat) (content old new : List Char) :
    replacePhase fz af th path fuel content old new false =
      some (singleReplace fz af th path content old new) := by
  simp [replacePhase]

/-- All mode without exact occurrences runs the iterative loop. -/
theorem replacePhase_all_loop {fz : List Char → List Char → List MatchCandidate}
    {af : Bool} {th : ℚ} {path : List Char} {fuel : Nat} {content old new : List Char}
    (hexact : (jsSplit old content).length - 1 = 0) :
    replacePhase fz af th path fuel content old new true =
      fuzzyLoop fz af th path old new fuel content 0 := by
  simp [replacePhase, hexact]

/-- A failing replacement phase makes the whole engine fail identically. -/
theorem editCore_fail_of_phase {fz : List Char → List Char → List MatchCandidate}
    {af : Bool} {th : ℚ} {path : List Char} {fuel : Nat} {content old new : List Char}
    {all : Bool} {e : EditError}
    (h : replacePhase fz af th path fuel content old new all = some (.fail e)) :
    editCore fz af th path fuel content old new all = some (.fail e) := by
  unfold editCore
  rw [h]

/-- Inversion for a successful engine run: the replacement phase produced
the result and it differs from the input content. -/
theorem editCore_done_inv {fz : List Char → List Char → List MatchCandidate}
    {af : Bool} {th : ℚ} {path : List Char} {fuel : Nat} {content old new : List Char}
    {all : Bool} {c : List Char} {cnt : Nat}
    (h : editCore fz af th path fuel content old new all = some (.done c cnt)) :
    replacePhase fz af th path fuel content old new all = some (.done c cnt) ∧ content ≠ c := by
  unfold editCore at h
  cases hrp : replacePhase fz af th path fuel content old new all with
  | none => rw [hrp] at h; simp at h
  | some cr =>
    rw [hrp] at h
    cases cr with
    | fail e => simp at h
    | done c2 k2 =>
      by_cases hceq : content = c2
      · simp [hceq] at h
      · simp [hceq] at h
        obtain ⟨rfl, rfl⟩ := h
        exact ⟨rfl, hceq⟩

/-- Unfolding of a whole edit invocation past the notebook check and the
existence check. -/
theorem executeEdit_eq {fz : List Char → List Char → List MatchCandidate}
    {af : Bool} {th : ℚ} {resolve : List Char → List Char}
    {fs : List Char → Option (List Char)} {fuel : Nat}
    {path oldText newText : List Char} {all : Bool} {raw : List Char}
    (hip : List.isSuffixOf (String.toList ".ipynb") path = false)
    (hfs : fs (resolve path) = some raw) :
    executeEdit fz af th resolve fs fuel path oldText newText all =
      (match editCore fz af th path fuel (normalizeToLF (stripBom raw).2)
          (normalizeToLF oldText) (normalizeToLF newText) all with
        | none => none
        | some (.fail e) => some (.fail e)
        | some (.done c cnt) =>
          some (.done
            { finalContent := (stripBom raw).1 ++ restoreLineEndings c (detectLineEnding (stripBom raw).2)
              count := cnt
              preNormalized := normalizeToLF (stripBom raw).2
              postNormalized := c })) := by
  simp only [executeEdit, hip, hfs]
  simp

/-- On the degenerate re-matching instance the all-mode loop never
terminates: every amount of fuel is exhausted, because the selected span
is the whole content and the replacement reproduces it unchanged. -/
theorem fzRematch_loop_none :
    ∀ (fuel cnt : Nat),
      fuzzyLoop fzRematch true 1 (String.toList "f.txt") (String.toList "a b")
        (String.toList "a  b") fuel (String.toList "a  b") cnt = none := by
  intro fuel
  induction fuel with
  | zero => intro cnt; rfl
  | succ n ih =>
    intro cnt
    have hsel : loopSelect fzRematch true 1 (String.toList "a b") (String.toList "a  b") =
        some { startIndex := 0, actualText := String.toList "a  b", confidence := 1 } := by
      decide
    have hsp : splice (String.toList "a  b") 0 (String.toList "a  b").length
        (String.toList "a  b") = String.toList "a  b" := by decide
    simp only [fuzzyLoop, hsel]
    simpa [hsp] using ih (cnt + 1)

/-! ## Claim theorems -/

/-- C1: in single-replacement mode, a search text with more than one exact
occurrence in the normalized content makes the edit fail with the
ambiguous-match error whose message states the occurrence count; no
replacement result is produced. -/
theorem c1_single_mode_ambiguous
    (fz : List Char → List Char → List MatchCandidate) (af : Bool) (th : ℚ)
    (resolve : List Char → List Char) (fs : List Char → Option (List Char))
    (fuel : Nat) (path oldText newText raw : List Char) (n : Nat)
    (hip : List.isSuffixOf (String.toList ".ipynb") path = false)
    (hfs : fs (resolve path) = some raw)
    (hn : countOcc (normalizeToLF oldText) (normalizeToLF (stripBom raw).2) = n)
    (hgt : 1 < n) :
    executeEdit fz af th resolve fs fuel path oldText newText false =
      some (.fail (.ambiguousMatch path n)) ∧
    (EditError.ambiguousMatch path n).message =
      "Found " ++ toString n ++ " occurrences of the text in " ++ String.mk path ++
        ". The text must be unique. Please provide more context to make it unique, or use all: true to replace all." := by
  refine ⟨?_, rfl⟩
  rw [executeEdit_eq hip hfs]
  have hsr : singleReplace fz af th path (normalizeToLF (stripBom raw).2)
      (normalizeToLF oldText) (normalizeToLF newText) = .fail (.ambiguousMatch path n) := by
    simp only [singleReplace]
    rw [findEditMatch_occurrences, hn]
    simp [hgt]
  have hec : editCore fz af th path fuel (normalizeToLF (stripBom raw).2)
      (normalizeToLF oldText) (normalizeToLF newText) false =
      some (.fail (.ambiguousMatch path n)) := by
    apply editCore_fail_of_phase
    rw [replacePhase_single, hsr]
  rw [hec]

/-- C2: in both modes, a replacement whose result equals the normalized
input raises the no-effective-change error, and a successful invocation
never carries an unchanged document. -/
theorem c2_no_effective_change
    (fz : List Char → List Char → List MatchCandidate) (af : Bool) (th : ℚ)
    (resolve : List Char → List Char) (fs : List Char → Option (List Char))
    (fuel : Nat) (path oldText newText : List Char) (all : Bool) :
    (∀ content old new c cnt,
        replacePhase fz af th path fuel content old new all = some (.done c cnt) →
        content = c →
        editCore fz af th path fuel content old new all = some (.fail (.noEffectiveChange path)))
    ∧ (∀ s, executeEdit fz af th resolve fs fuel path oldText newText all = some (.done s) →
        s.preNormalized ≠ s.postNormalized) := by
  constructor
  · intro content old new c cnt h hceq
    unfold editCore
    rw [h]
    simp [hceq]
  · intro s h
    by_cases hip : List.isSuffixOf (String.toList ".ipynb") path = true
    · simp only [executeEdit, hip] at h
      simp at h
    · rw [Bool.not_eq_true] at hip
      cases hfs : fs (resolve path) with
      | none =>
        simp only [executeEdit, hip, hfs] at h
        simp at h
      | some raw =>
        rw [executeEdit_eq hip hfs] at h
        cases hec : editCore fz af th path fuel (normalizeToLF (stripBom raw).2)
            (normalizeToLF oldText) (normalizeToLF newText) all with
        | none => rw [hec] at h; simp at h
        | some cr =>
          rw [hec] at h
          cases cr with
          | fail e => simp at h
          | done c cnt =>
            simp at h
            have hne := (editCore_done_inv hec).2
            rw [← h]
            simpa using hne

/-- C3: in replace-all mode with a positive exact occurrence count `n`,
the replacement phase succeeds via the exact `split`/`join` path with
count `n`, and that result coincides with the specification-level
replacement of every non-overlapping occurrence. -/
theorem c3_replace_all_exact
    (fz : List Char → List Char → List MatchCandidate) (af : Bool) (th : ℚ)
    (path : List Char) (fuel : Nat) (content old new : List Char) (n : Nat)
    (hn : countOcc old content = n) (hpos : 0 < n) :
    replacePhase fz af th path fuel content old new true =
      some (.done (replaceAllSpec old new content) n) ∧
    jsJoin new (jsSplit old content) = replaceAllSpec old new content := by
  have hne : old ≠ [] := countOcc_pos_ne (by rw [hn]; exact hpos)
  have hlen : (jsSplit old content).length - 1 = n := by
    rw [exactCount_eq hne, hn]
  refine ⟨?_, join_jsSplit hne new content⟩
  simp only [replacePhase, if_true]
  rw [hlen]
  simp only [hpos, if_true]
  rw [join_jsSplit hne new content]

/-- C4: in replace-all mode with zero exact occurrences, a terminating run
that performed no replacement fails with exactly the no-match error that
single mode raises on the same inputs, and a terminating run that
performed at least one replacement succeeds. -/
theorem c4_all_mode_loop_outcome
    (fz : List Char → List Char → List MatchCandidate) (af : Bool) (th : ℚ)
    (path : List Char) (fuel : Nat) (content old new : List Char) (r : CoreResult)
    (hexact : (jsSplit old content).length - 1 = 0)
    (hrun : editCore fz af th path fuel content old new true = some r) :
    (∀ e, r = .fail e →
        e.isNoMatch = true ∧
        editCore fz af th path fuel content old new false = some (.fail e))
    ∧ (∀ c cnt, r = .done c cnt → 1 ≤ cnt) := by
  constructor
  · intro e hre
    subst hre
    unfold editCore at hrun
    rw [replacePhase_all_loop hexact] at hrun
    cases hlp : fuzzyLoop fz af th path old new fuel content 0 with
    | none => rw [hlp] at hrun; simp at hrun
    | some cr =>
      rw [hlp] at hrun
      cases cr with
      | done c k =>
        have htop := fuzzyLoop_top_done hlp
        by_cases hceq : content = c
        · exact absurd hceq.symm htop.2
        · simp [hceq] at hrun
      | fail e2 =>
        simp at hrun
        subst hrun
        have hf := fuzzyLoop_fail _ _ _ _ hlp
        obtain ⟨-, hsel, rfl⟩ := hf
        have hocc := exactCount_zero_countOcc hexact
        refine ⟨rfl, ?_⟩
        apply editCore_fail_of_phase
        rw [replacePhase_single, singleReplace_noMatch new hocc hsel]
  · intro c cnt hr
    subst hr
    unfold editCore at hrun
    rw [replacePhase_all_loop hexact] at hrun
    cases hlp : fuzzyLoop fz af th path old new fuel content 0 with
    | none => rw [hlp] at hrun; simp at hrun
    | some cr =>
      rw [hlp] at hrun
      cases cr with
      | fail e => simp at hrun
      | done c2 k2 =>
        by_cases hceq : content = c2
        · simp [hceq] at hrun
        · simp [hceq] at hrun
          have h1 := (fuzzyLoop_top_done hlp).1
          omega

/-- C5 (counterexample): no iteration cap bounded by the document size is
imposed on the all-mode loop.  On a four-character document whose search
fragment differs from a span only in whitespace — so that the approximate
scanner keeps re-matching the replacement — the engine is still running
after 50 iterations, far beyond any cap proportional to the document
size. -/
theorem c5_counterexample :
    editCore fzRematch true 1 (String.toList "f.txt") 50 (String.toList "a  b")
      (String.toList "a b") (String.toList "a  b") true = none := by
  unfold editCore
  rw [replacePhase_all_loop (by decide), fzRematch_loop_none 50 0]

/-- C5 (amended): the all-mode loop of the source has no iteration cap
and need not terminate: on an input whose replacement approximately
re-matches the search fragment, every finite iteration bound whatsoever
is exhausted with the engine still running. -/
theorem c5_no_cap_nontermination :
    ∀ fuel : Nat,
      editCore fzRematch true 1 (String.toList "f.txt") fuel (String.toList "a  b")
        (String.toList "a b") (String.toList "a  b") true = none := by
  intro fuel
  unfold editCore
  rw [replacePhase_all_loop (by decide), fzRematch_loop_none fuel 0]

/-- C6 (counterexample): normalization followed by restoration is not the
identity on every raw content.  A document with two CRLF terminators and
one lone LF is detected as mixed with CRLF dominant, and restoration
rewrites the lone LF to CRLF. -/
theorem c6_counterexample :
    roundTrip (String.toList "a\r\nb\r\nc\n") ≠ String.toList "a\r\nb\r\nc\n" := by
  decide

/-- C6 (amended): when the BOM-stripped content is not detected as mixed
— its line endings are uniformly LF or uniformly CRLF — stripping the
marker, canonicalizing, re-prepending the marker and re-expanding
reproduces the original content exactly. -/
theorem c6_round_trip_uniform (raw : List Char)
    (h : (detectLineEnding (stripBom raw).2).isMixed = false) :
    roundTrip raw = raw := by
  unfold roundTrip
  by_cases h1 : countCRLF (stripBom raw).2 = 0
  · have hd : detectLineEnding (stripBom raw).2 = .lf := by
      simp [detectLineEnding, h1]
    rw [hd]
    simp only [restoreLineEndings]
    rw [normalizeToLF_id (stripBom raw).2.length _ (Nat.le_refl _) h1]
    exact stripBom_append raw
  · by_cases h2 : countLoneLF (stripBom raw).2 = 0
    · have hd : detectLineEnding (stripBom raw).2 = .crlf := by
        simp [detectLineEnding, h1, h2]
      rw [hd]
      simp only [restoreLineEndings]
      rw [restoreCRLF_normalizeToLF (stripBom raw).2.length _ (Nat.le_refl _) h2]
      exact stripBom_append raw
    · exfalso
      have hd : detectLineEnding (stripBom raw).2 =
          .mixed (if countLoneLF (stripBom raw).2 < countCRLF (stripBom raw).2 then .crlf else .lf) := by
        simp [detectLineEnding, h1, h2]
      rw [hd] at h
      simp [LineEnding.isMixed] at h

/-- C7: the unsupported-format check precedes path resolution, the
existence check and all I/O: for a path ending in `.ipynb` the edit fails
with the unsupported-format error for every filesystem and resolver —
in particular when the file does not exist — and the result depends on
neither. -/
theorem c7_ipynb_rejected_first
    (fz : List Char → List Char → List MatchCandidate) (af : Bool) (th : ℚ)
    (resolve : List Char → List Char) (fs : List Char → Option (List Char))
    (fuel : Nat) (path oldText newText : List Char) (all : Bool)
    (hip : List.isSuffixOf (String.toList ".ipynb") path = true) :
    executeEdit fz af th resolve fs fuel path oldText newText all =
      some (.fail (.unsupportedFormat path)) := by
  simp only [executeEdit, hip]
  simp

/-- C8: error atomicity — whenever the invocation fails with an
engine-raised error, the writethrough collaborator is never reached and
the filesystem is left unchanged. -/
theorem c8_error_atomicity
    (fz : List Char → List Char → List MatchCandidate) (af : Bool) (th : ℚ)
    (resolve : List Char → List Char) (fs : List Char → Option (List Char))
    (fuel : Nat) (path oldText newText : List Char) (all : Bool) (e : EditError)
    (h : executeEdit fz af th resolve fs fuel path oldText newText all = some (.fail e)) :
    executeEditFS fz af th resolve fs fuel path oldText newText all = fs := by
  unfold executeEditFS
  rw [h]

/-- C9: registry frame property — registering a custom API makes lookup
of its key return the registered function, and source-scoped removal
deletes exactly the entries recorded for that source, leaving every entry
with a different or absent source untouched. -/
theorem c9_registry_frame {α : Type} (r : Registry α) (a : String) (f : α)
    (src : Option String) (s : String) :
    getCustomApi (registerCustomApi r a f src) a = some f
    ∧ (∀ k, (∀ e, r k = some e → e.sourceId ≠ some s) →
        getCustomApi (unregisterCustomApis r s) k = getCustomApi r k)
    ∧ (∀ k e, r k = some e → e.sourceId = some s →
        unregisterCustomApis r s k = none) := by
  refine ⟨?_, ?_, ?_⟩
  · simp [getCustomApi, registerCustomApi]
  · intro k hk
    unfold getCustomApi unregisterCustomApis
    cases hrk : r k with
    | none => rfl
    | some e =>
      have := hk e hrk
      simp [this]
  · intro k e hrk hsrc
    unfold unregisterCustomApis
    rw [hrk]
    simp [hsrc]

/-! ## Lemmas about hexadecimal snowflake encoding -/

/-- A fixed-width hex rendering has exactly the requested width. -/
theorem toHexFixed_length : ∀ (w n : Nat), (toHexFixed w n).length = w := by
  intro w
  induction w with
  | zero => intro n; rfl
  | succ v ih => intro n; simp [toHexFixed, ih]

/-- Hex digits of values below 16 are lowercase hexadecimal characters. -/
theorem hexDigit_charset {d : Nat} (h : d < 16) :
    (('0' ≤ hexDigit d && hexDigit d ≤ '9') || ('a' ≤ hexDigit d && hexDigit d ≤ 'f')) = true := by
  interval_cases d <;> decide

/-- Decoding inverts the hex digit encoding below 16. -/
theorem hexDigitVal_hexDigit {d : Nat} (h : d < 16) : hexDigitVal (hexDigit d) = d := by
  interval_cases d <;> decide

/-- The code-unit order of hex digits agrees with the numeric order. -/
theorem hexDigit_lt_iff {d1 d2 : Nat} (h1 : d1 < 16) (h2 : d2 < 16) :
    hexDigit d1 < hexDigit d2 ↔ d1 < d2 := by
  interval_cases d1 <;> interval_cases d2 <;> decide

/-- Hex digit encoding is injective below 16. -/
theorem hexDigit_eq_iff {d1 d2 : Nat} (h1 : d1 < 16) (h2 : d2 < 16) :
    hexDigit d1 = hexDigit d2 ↔ d1 = d2 := by
  interval_cases d1 <;> interval_cases d2 <;> decide

/-- Every character of a fixed-width hex rendering of an in-range value is
a lowercase hexadecimal character. -/
theorem toHexFixed_all_hex :
    ∀ (w n : Nat), n < 16 ^ w →
      (toHexFixed w n).all (fun c => (('0' ≤ c && c ≤ '9') || ('a' ≤ c && c ≤ 'f'))) = true := by
  intro w
  induction w with
  | zero => intro n h; rfl
  | succ v ih =>
    intro n h
    have hp : 0 < 16 ^ v := pow_pos (by norm_num) v
    have hq : n / 16 ^ v < 16 := by
      rw [Nat.div_lt_iff_lt_mul hp]
      calc n < 16 ^ (v + 1) := h
        _ = 16 * 16 ^ v := by ring
    simp [toHexFixed, hexDigit_charset hq, ih _ (Nat.mod_lt _ hp)]

/-- A 16-character snowflake rendering of an in-range value passes the
validation pattern. -/
theorem snowValid_toHexFixed {n : Nat} (h : n < 16 ^ 16) :
    snowValid (toHexFixed 16 n) = true := by
  simp [snowValid, toHexFixed_length, toHexFixed_all_hex 16 n h]

/-- The numeric value of a fixed-width hex rendering of an in-range value
is the value itself. -/
theorem hexVal_toHexFixed :
    ∀ (w n : Nat), n < 16 ^ w → hexVal (toHexFixed w n) = n := by
  intro w
  induction w with
  | zero => intro n h; simp [toHexFixed, hexVal]; omega
  | succ v ih =>
    intro n h
    have hp : 0 < 16 ^ v := pow_pos (by norm_num) v
    have hq : n / 16 ^ v < 16 := by
      rw [Nat.div_lt_iff_lt_mul hp]
      calc n < 16 ^ (v + 1) := h
        _ = 16 * 16 ^ v := by ring
    simp only [toHexFixed, hexVal, toHexFixed_length]
    rw [hexDigitVal_hexDigit hq, ih _ (Nat.mod_lt _ hp), Nat.mul_comm]
    exact Nat.div_add_mod n (16 ^ v)

/-- Division by a positive number reflects strict order. -/
theorem lt_of_div_lt_div {k a b : Nat} (hk : 0 < k) (h : a / k < b / k) : a < b := by
  have h1 : k * (a / k) + k ≤ k * (b / k) := by
    have h2 := Nat.mul_le_mul_left k (Nat.succ_le_of_lt h)
    calc k * (a / k) + k = k * (a / k + 1) := by ring
      _ ≤ k * (b / k) := h2
  calc a = k * (a / k) + a % k := (Nat.div_add_mod a k).symm
    _ < k * (a / k) + k := Nat.add_lt_add_left (Nat.mod_lt _ hk) _
    _ ≤ k * (b / k) := h1
    _ ≤ k * (b / k) + b % k := Nat.le_add_right _ _
    _ = b := Nat.div_add_mod b k

/-- Lexicographic comparison of equal-width zero-padded hex renderings
agrees with numeric comparison of the encoded values. -/
theorem lexLe_toHexFixed :
    ∀ (w a b : Nat), a < 16 ^ w → b < 16 ^ w →
      (lexLe (toHexFixed w a) (toHexFixed w b) = true ↔ a ≤ b) := by
  intro w
  induction w with
  | zero =>
    intro a b ha hb
    have ha0 : a = 0 := by omega
    have hb0 : b = 0 := by omega
    subst ha0; subst hb0
    simp [toHexFixed, lexLe]
  | succ v ih =>
    intro a b ha hb
    have hp : 0 < 16 ^ v := pow_pos (by norm_num) v
    have hqa : a / 16 ^ v < 16 := by
      rw [Nat.div_lt_iff_lt_mul hp]
      calc a < 16 ^ (v + 1) := ha
        _ = 16 * 16 ^ v := by ring
    have hqb : b / 16 ^ v < 16 := by
      rw [Nat.div_lt_iff_lt_mul hp]
      calc b < 16 ^ (v + 1) := hb
        _ = 16 * 16 ^ v := by ring
    have hma : a % 16 ^ v < 16 ^ v := Nat.mod_lt _ hp
    have hmb : b % 16 ^ v < 16 ^ v := Nat.mod_lt _ hp
    simp only [toHexFixed, lexLe]
    rcases Nat.lt_trichotomy (a / 16 ^ v) (b / 16 ^ v) with hlt | heq | hgt
    · have hcl : hexDigit (a / 16 ^ v) < hexDigit (b / 16 ^ v) :=
        (hexDigit_lt_iff hqa hqb).mpr hlt
      have hab : a ≤ b := Nat.le_of_lt (lt_of_div_lt_div hp hlt)
      simp [hcl, hab]
    · have hce : hexDigit (a / 16 ^ v) = hexDigit (b / 16 ^ v) := by rw [heq]
      have hncl : ¬(hexDigit (a / 16 ^ v) < hexDigit (b / 16 ^ v)) := by
        rw [hexDigit_lt_iff hqa hqb, heq]
        exact Nat.lt_irrefl _
      rw [if_neg hncl, if_pos hce, ih _ _ hma hmb]
      have ha2 : a = 16 ^ v * (a / 16 ^ v) + a % 16 ^ v := (Nat.div_add_mod a _).symm
      have hb2 : b = 16 ^ v * (a / 16 ^ v) + b % 16 ^ v := by
        rw [heq]
        exact (Nat.div_add_mod b _).symm
      constructor
      · intro hle
        rw [ha2, hb2]
        exact Nat.add_le_add_left hle _
      · intro hle
        rw [ha2, hb2] at hle
        exact Nat.le_of_add_le_add_left hle
    · have hncl : ¬(hexDigit (a / 16 ^ v) < hexDigit (b / 16 ^ v)) := by
        rw [hexDigit_lt_iff hqa hqb]
        exact Nat.not_lt.mpr (Nat.le_of_lt hgt)
      have hne : ¬(hexDigit (a / 16 ^ v) = hexDigit (b / 16 ^ v)) := by
        rw [hexDigit_eq_iff hqa hqb]
        intro hcon
        rw [hcon] at hgt
        exact Nat.lt_irrefl _ hgt
      have hnab : ¬(a ≤ b) := Nat.not_le.mpr (lt_of_div_lt_div hp hgt)
      simp [hncl, hne, hnab]

/-- C10: for every source and every in-range timestamp, the generated
identifier is a valid sixteen-character lowercase hex snowflake lying
between the lower and upper bounds for that timestamp, both
lexicographically (as JavaScript compares the zero-padded strings) and
numerically (as values of the encoded hex strings). -/
theorem c10_snowflake_bounds (epoch t : Int) (seq : Nat)
    (h1 : epoch ≤ t) (h2 : t < epoch + 2 ^ 42) :
    snowValid ((SnowSource.next ⟨epoch, seq⟩ t).2) = true
    ∧ lexLe (snowLowerbound t ⟨epoch, seq⟩) ((SnowSource.next ⟨epoch, seq⟩ t).2) = true
    ∧ lexLe ((SnowSource.next ⟨epoch, seq⟩ t).2) (snowUpperbound t ⟨epoch, seq⟩) = true
    ∧ hexVal (snowLowerbound t ⟨epoch, seq⟩) ≤ hexVal ((SnowSource.next ⟨epoch, seq⟩ t).2)
    ∧ hexVal ((SnowSource.next ⟨epoch, seq⟩ t).2) ≤ hexVal (snowUpperbound t ⟨epoch, seq⟩) := by
  have hd : (t - epoch).toNat < 2 ^ 42 := by omega
  have hmask : (0x3fffff : Nat) = 2 ^ 22 - 1 := by norm_num
  have hseq : (seq + 1) &&& 0x3fffff < 2 ^ 22 := by
    rw [hmask, Nat.and_pow_two_sub_one_eq_mod]
    exact Nat.mod_lt _ (by norm_num)
  have hval : ((seq + 1) &&& 0x3fffff) ||| ((t - epoch).toNat <<< 22) =
      2 ^ 22 * (t - epoch).toNat + ((seq + 1) &&& 0x3fffff) := by
    rw [Nat.shiftLeft_eq, Nat.lor_comm, Nat.mul_comm]
    exact (Nat.mul_add_lt_is_or hseq _).symm
  have hlow : (0x000000 : Nat) ||| ((t - epoch).toNat <<< 22) =
      2 ^ 22 * (t - epoch).toNat := by
    rw [Nat.shiftLeft_eq, Nat.mul_comm]
    simp
  have hupp : (0x3fffff : Nat) ||| ((t - epoch).toNat <<< 22) =
      2 ^ 22 * (t - epoch).toNat + 0x3fffff := by
    rw [Nat.shiftLeft_eq, Nat.lor_comm, Nat.mul_comm]
    exact (Nat.mul_add_lt_is_or (by norm_num) _).symm
  have hnext : (SnowSource.next ⟨epoch, seq⟩ t).2 =
      toHexFixed 16 (2 ^ 22 * (t - epoch).toNat + ((seq + 1) &&& 0x3fffff)) := by
    simp only [SnowSource.next]
    rw [hval]
  have hlowS : snowLowerbound t ⟨epoch, seq⟩ =
      toHexFixed 16 (2 ^ 22 * (t - epoch).toNat) := by
    simp only [snowLowerbound]
    rw [hlow]
  have huppS : snowUpperbound t ⟨epoch, seq⟩ =
      toHexFixed 16 (2 ^ 22 * (t - epoch).toNat + 0x3fffff) := by
    simp only [snowUpperbound]
    rw [hupp]
  rw [hnext, hlowS, huppS]
  have c1 : (2 : Nat) ^ 22 = 4194304 := by norm_num
  have c2 : (2 : Nat) ^ 42 = 4398046511104 := by norm_num
  have c3 : (16 : Nat) ^ 16 = 18446744073709551616 := by norm_num
  rw [c1] at hseq ⊢
  rw [c2] at hd
  have bval : 4194304 * (t - epoch).toNat + ((seq + 1) &&& 0x3fffff) < 16 ^ 16 := by
    rw [c3]; omega
  have blow : 4194304 * (t - epoch).toNat < 16 ^ 16 := by
    rw [c3]; omega
  have bupp : 4194304 * (t - epoch).toNat + 0x3fffff < 16 ^ 16 := by
    rw [c3]; omega
  refine ⟨snowValid_toHexFixed bval, ?_, ?_, ?_, ?_⟩
  · exact (lexLe_toHexFixed 16 _ _ blow bval).mpr (by omega)
  · exact (lexLe_toHexFixed 16 _ _ bval bupp).mpr (by omega)
  · rw [hexVal_toHexFixed 16 _ blow, hexVal_toHexFixed 16 _ bval]
    omega
  · rw [hexVal_toHexFixed 16 _ bval, hexVal_toHexFixed 16 _ bupp]
    omega

/-! ## Witnesses -/

/-- Witness for C1 on the two-occurrence document of the specification. -/
theorem c1_witness :
    executeEdit (fun _ _ => []) true 1 (fun p => p)
        (fun _ => some (String.toList "x=1\nx=1\n")) 5
        (String.toList "f.txt") (String.toList "x=1") (String.toList "x=2") false =
      some (.fail (.ambiguousMatch (String.toList "f.txt") 2)) ∧
    (EditError.ambiguousMatch (String.toList "f.txt") 2).message =
      "Found " ++ toString 2 ++ " occurrences of the text in " ++
        String.mk (String.toList "f.txt") ++
        ". The text must be unique. Please provide more context to make it unique, or use all: true to replace all." := by
  exact c1_single_mode_ambiguous (fun _ _ => []) true 1 (fun p => p)
    (fun _ => some (String.toList "x=1\nx=1\n")) 5
    (String.toList "f.txt") (String.toList "x=1") (String.toList "x=2")
    (String.toList "x=1\nx=1\n") 2 (by decide) rfl (by decide) (by decide)

/-- Witness for C2: a replacement of `b` by itself is rejected as a
no-effective-change error, and a successful replacement of `b` by `B`
carries distinct pre- and post-contents. -/
theorem c2_witness :
    editCore (fun _ _ => []) true 1 (String.toList "f.txt") 5 (String.toList "a\nb\n")
        (String.toList "b") (String.toList "b") false =
      some (.fail (.noEffectiveChange (String.toList "f.txt"))) ∧
    ({ finalContent := String.toList "a\nB\nc\n", count := 1,
       preNormalized := String.toList "a\nb\nc\n",
       postNormalized := String.toList "a\nB\nc\n" } : EditSuccess).preNormalized ≠
      ({ finalContent := String.toList "a\nB\nc\n", count := 1,
         preNormalized := String.toList "a\nb\nc\n",
         postNormalized := String.toList "a\nB\nc\n" } : EditSuccess).postNormalized := by
  constructor
  · exact (c2_no_effective_change (fun _ _ => []) true 1 (fun p => p) (fun _ => none) 5
      (String.toList "f.txt") [] [] false).1
      (String.toList "a\nb\n") (String.toList "b") (String.toList "b")
      (String.toList "a\nb\n") 1 (by decide) rfl
  · exact (c2_no_effective_change (fun _ _ => []) true 1 (fun p => p)
      (fun _ => some (String.toList "a\nb\nc\n")) 5
      (String.toList "f.txt") (String.toList "b") (String.toList "B") false).2
      _ (by decide)

/-- Witness for C3 on the replace-all example of the specification. -/
theorem c3_witness :
    replacePhase (fun _ _ => []) true 1 (String.toList "f.txt") 5
        (String.toList "x=1\nx=1\n") (String.toList "x=1") (String.toList "x=2") true =
      some (.done (replaceAllSpec (String.toList "x=1") (String.toList "x=2")
        (String.toList "x=1\nx=1\n")) 2) ∧
    jsJoin (String.toList "x=2") (jsSplit (String.toList "x=1") (String.toList "x=1\nx=1\n")) =
      replaceAllSpec (String.toList "x=1") (String.toList "x=2") (String.toList "x=1\nx=1\n") := by
  exact c3_replace_all_exact (fun _ _ => []) true 1 (String.toList "f.txt") 5
    (String.toList "x=1\nx=1\n") (String.toList "x=1") (String.toList "x=2") 2
    (by decide) (by decide)

/-- Witness for C4: with no exact occurrence and a scanner that never
matches, all mode fails with exactly the no-match error of single mode. -/
theorem c4_witness :
    (EditError.noMatch (String.toList "f.txt") (String.toList "zz") none true 1 []).isNoMatch = true ∧
    editCore (fun _ _ => []) true 1 (String.toList "f.txt") 5 (String.toList "ab")
        (String.toList "zz") (String.toList "Q") false =
      some (.fail (.noMatch (String.toList "f.txt") (String.toList "zz") none true 1 [])) := by
  exact (c4_all_mode_loop_outcome (fun _ _ => []) true 1 (String.toList "f.txt") 5
    (String.toList "ab") (String.toList "zz") (String.toList "Q")
    (.fail (.noMatch (String.toList "f.txt") (String.toList "zz") none true 1 []))
    (by decide) (by decide)).1
    (.noMatch (String.toList "f.txt") (String.toList "zz") none true 1 []) rfl

/-- Witness for C6 on a BOM-prefixed uniformly CRLF document. -/
theorem c6_witness :
    roundTrip (bomChar :: String.toList "a\r\nb\r\n") =
      bomChar :: String.toList "a\r\nb\r\n" := by
  exact c6_round_trip_uniform (bomChar :: String.toList "a\r\nb\r\n") (by decide)

/-- Witness for C7 on a notebook path over an empty filesystem (the file
does not exist, yet the error is the unsupported-format one). -/
theorem c7_witness :
    executeEdit (fun _ _ => []) true 1 (fun p => p) (fun _ => none) 5
        (String.toList "nb.ipynb") (String.toList "a") (String.toList "b") false =
      some (.fail (.unsupportedFormat (String.toList "nb.ipynb"))) := by
  exact c7_ipynb_rejected_first (fun _ _ => []) true 1 (fun p => p) (fun _ => none) 5
    (String.toList "nb.ipynb") (String.toList "a") (String.toList "b") false (by decide)

/-- Witness for C8 on a failing (not-found) invocation over an empty
filesystem. -/
theorem c8_witness :
    executeEditFS (fun _ _ => []) true 1 (fun p => p) (fun _ => none) 5
        (String.toList "f.txt") (String.toList "a") (String.toList "b") false =
      (fun _ => none) := by
  exact c8_error_atomicity (fun _ _ => []) true 1 (fun p => p) (fun _ => none) 5
    (String.toList "f.txt") (String.toList "a") (String.toList "b") false
    (.notFound (String.toList "f.txt")) (by decide)

/-- Witness for C9 on a small concrete registry over natural-number
handles. -/
theorem c9_witness :
    getCustomApi (registerCustomApi (fun _ => none) "vertex" (7 : Nat) (some "ext")) "vertex" =
      some 7 ∧
    getCustomApi (unregisterCustomApis
        (fun k => if k = "other" then some ⟨(3 : Nat), some "keep"⟩ else none) "ext") "other" =
      getCustomApi (fun k => if k = "other" then some ⟨(3 : Nat), some "keep"⟩ else none) "other" ∧
    unregisterCustomApis (fun k => if k = "gone" then some ⟨(5 : Nat), some "ext"⟩ else none)
        "ext" "gone" = none := by
  refine ⟨?_, ?_, ?_⟩
  · exact (c9_registry_frame (fun _ => none) "vertex" (7 : Nat) (some "ext") "ext").1
  · refine (c9_registry_frame
      (fun k => if k = "other" then some ⟨(3 : Nat), some "keep"⟩ else none)
      "unused" 0 none "ext").2.1 "other" ?_
    intro e he
    have he2 : some (⟨3, some "keep"⟩ : RegisteredCustomApi Nat) = some e := he
    injection he2 with he3
    rw [← he3]
    decide
  · exact (c9_registry_frame
      (fun k => if k = "gone" then some ⟨(5 : Nat), some "ext"⟩ else none)
      "unused" 0 none "ext").2.2 "gone" ⟨5, some "ext"⟩ rfl rfl

/-- Witness for C10 at the default epoch and a nearby timestamp. -/
theorem c10_witness :
    snowValid ((SnowSource.next ⟨1420070400000, 5⟩ 1420070400123).2) = true
    ∧ lexLe (snowLowerbound 1420070400123 ⟨1420070400000, 5⟩)
        ((SnowSource.next ⟨1420070400000, 5⟩ 1420070400123).2) = true
    ∧ lexLe ((SnowSource.next ⟨1420070400000, 5⟩ 1420070400123).2)
        (snowUpperbound 1420070400123 ⟨1420070400000, 5⟩) = true
    ∧ hexVal (snowLowerbound 1420070400123 ⟨1420070400000, 5⟩) ≤
        hexVal ((SnowSource.next ⟨1420070400000, 5⟩ 1420070400123).2)
    ∧ hexVal ((SnowSource.next ⟨1420070400000, 5⟩ 1420070400123).2) ≤
        hexVal (snowUpperbound 1420070400123 ⟨1420070400000, 5⟩) := by
  exact c10_snowflake_bounds 1420070400000 1420070400123 5 (by norm_num) (by norm_num)

end OhMyPi
